import Mathlib

/-!
Verification of the content-extraction and rendering pipeline of the
web-content-llm repository (src/index.js).  Text is modelled as `List Char`;
the parsed DOM is a rose tree of elements and text nodes; the impure call
`new Date()` inside the renderers is made explicit as a `JDate` parameter.
-/

set_option maxRecDepth 10000

/-- Strings are modelled as lists of characters. -/
abbrev Str := List Char

/-- Shorthand turning a Lean string literal into the `Str` model. -/
def S (s : String) : Str := s.data

/-- Whitespace predicate backing `String.prototype.trim` (common ASCII whitespace). -/
def isWs (c : Char) : Bool :=
  c == ' ' || c == '\t' || c == '\n' || c == '\r'

/-- Model of JavaScript `text.trim()`: strip leading and trailing whitespace. -/
def trim (l : Str) : Str :=
  ((l.dropWhile isWs).reverse.dropWhile isWs).reverse

/-- Model of `isValidText` (src/index.js line 30): `text && text.trim().length >= minLength`. -/
def isValidText (text : Str) (minLength : Nat) : Bool :=
  !text.isEmpty && decide (minLength ≤ (trim text).length)

mutual
/-- A node of the parsed DOM tree: a text node or an element with a tag and children. -/
inductive HNode where
  | text (s : Str)
  | elem (tag : String) (children : HForest)

/-- The children of an element, as a (mutually defined) list of nodes. -/
inductive HForest where
  | nil
  | cons (n : HNode) (f : HForest)
end

/-- Build a forest from a list of nodes (notation convenience for examples). -/
def HForest.ofList : List HNode → HForest
  | [] => .nil
  | n :: r => .cons n (HForest.ofList r)

mutual
/-- Text content of a single node, in document order (cheerio `$el.text()`). -/
def textOf : HNode → Str
  | .text s => s
  | .elem _ cs => textList cs

/-- Concatenated text of a forest. -/
def textList : HForest → Str
  | .nil => []
  | .cons n r => textOf n ++ textList r
end

/-- Direct child `li` elements of a node (cheerio `find('> li')`). -/
def directLis (n : HNode) : List HNode :=
  match n with
  | .text _ => []
  | .elem _ cs => lisFilter cs
where
  lisFilter : HForest → List HNode
  | .nil => []
  | .cons c r =>
      match c with
      | .elem "li" _ => c :: lisFilter r
      | _ => lisFilter r

/-- A visited element: its tag, the tags of its ancestors (innermost first), and the node. -/
abbrev Entry := String × List String × HNode

mutual
/-- Pre-order contribution of one node to `find('*')`, with ancestor tags. -/
def visitNode (anc : List String) : HNode → List Entry
  | .text _ => []
  | .elem t cs => (t, anc, .elem t cs) :: visitForest (t :: anc) cs

/-- Pre-order listing of all elements of a forest, each paired with its tag and
its ancestor tags.  Models `mainContent.find('*')` together with the
information `$el.parents(...)` consults. -/
def visitForest (anc : List String) : HForest → List Entry
  | .nil => []
  | .cons n r => visitNode anc n ++ visitForest anc r
end

/-- All proper descendants of the content-scope element, in document order, with
ancestor tags (the scope's own tag included, as `parents()` reports it too). -/
def descendants : HNode → List Entry
  | .text _ => []
  | .elem t cs => visitForest [t] cs

/-- A section record as built by the extractors: a `type` string together with
`content` (headings, paragraphs, quotes) or `items` (lists); the unused field
is the empty string / empty list, mirroring the absent JS property. -/
structure JSection where
  type : String
  content : Str
  items : List Str
deriving DecidableEq, Repr

/-- Model of `extractHeading` (src/index.js lines 48-51). -/
def extractHeading (n : HNode) (tagName : String) : Option JSection :=
  let content := trim (textOf n)
  if content = [] then none else some ⟨tagName, content, []⟩

/-- Model of `extractParagraph` (src/index.js lines 53-56); the minimum length is 3. -/
def extractParagraph (n : HNode) : Option JSection :=
  let content := trim (textOf n)
  if isValidText content 3 then some ⟨"paragraph", content, []⟩ else none

/-- Model of `extractList` (src/index.js lines 58-66): trimmed text of direct
`li` children, empty ones dropped; no section when no items remain. -/
def extractList (n : HNode) (type : String) : Option JSection :=
  let items := ((directLis n).map fun li => trim (textOf li)).filter fun i => !i.isEmpty
  if items.isEmpty then none else some ⟨type, [], items⟩

/-- Model of `extractQuote` (src/index.js lines 68-71). -/
def extractQuote (n : HNode) : Option JSection :=
  let content := trim (textOf n)
  if content = [] then none else some ⟨"quote", content, []⟩

/-- Model of `extractSectionByType` (src/index.js lines 73-88): dispatch on the tag. -/
def extractSectionByType (n : HNode) (tagName : String) : Option JSection :=
  match tagName with
  | "h1" => extractHeading n "h1"
  | "h2" => extractHeading n "h2"
  | "h3" => extractHeading n "h3"
  | "h4" => extractHeading n "h4"
  | "h5" => extractHeading n "h5"
  | "h6" => extractHeading n "h6"
  | "p" => extractParagraph n
  | "ul" => extractList n "bullet-list"
  | "ol" => extractList n "numbered-list"
  | "blockquote" => extractQuote n
  | _ => none

/-- The dedup identity key (src/index.js line 105):
`section.type + ':' + (section.content || section.items?.join(',') || '')`. -/
def sectionKey (s : JSection) : Str :=
  s.type.data ++ ':' :: (if s.content = [] then List.intercalate (S ",") s.items else s.content)

/-- Tags whose interiors the traversal skips (src/index.js line 100). -/
def isExcludedTag (t : String) : Bool :=
  t == "ul" || t == "ol" || t == "table"

/-- One visited element's contribution: skipped when an ancestor is a `ul`, `ol`
or `table` (the line-100 guard), otherwise classified by tag. -/
def classifyEntry : Entry → Option JSection
  | (tag, anc, n) => if anc.any isExcludedTag then none else extractSectionByType n tag

/-- One iteration of the `each` callback of `extractSections` (src/index.js
lines 95-113): state is (sections so far, keys seen so far). -/
def extractStep (acc : List JSection × List Str) (e : Entry) :
    List JSection × List Str :=
  match classifyEntry e with
  | none => acc
  | some s =>
      if sectionKey s ∈ acc.2 then acc else (acc.1 ++ [s], sectionKey s :: acc.2)

/-- Model of `extractSections` (src/index.js lines 90-116), applied to the
already-selected content-scope element (the `mainContent` of line 91). -/
def extractSections (mainContent : HNode) : List JSection :=
  ((descendants mainContent).foldl extractStep ([], [])).1

/-- The classified sections of the traversal before deduplication: the sequence
of sections the `each` loop computes, in document order, duplicates included. -/
def classifiedSections (mainContent : HNode) : List JSection :=
  (descendants mainContent).filterMap classifyEntry

/-- Keep-first deduplication by `sectionKey` relative to a set of already-seen keys. -/
def dedupByKey : List JSection → List Str → List JSection
  | [], _ => []
  | s :: rest, seen =>
      if sectionKey s ∈ seen then dedupByKey rest seen
      else s :: dedupByKey rest (sectionKey s :: seen)

/-- Classification of a pruned-traversal element (no ancestor check needed there). -/
def classifyPruned (e : String × HNode) : Option JSection :=
  extractSectionByType e.2 e.1

mutual
/-- Pruned pre-order contribution of one node: never descends below a `ul`,
`ol` or `table` element (the excluded element itself is still listed). -/
def prunedNode : HNode → List (String × HNode)
  | .text _ => []
  | .elem t cs =>
      (t, .elem t cs) :: (if isExcludedTag t then [] else prunedForest cs)

/-- Pruned pre-order listing of the elements of a forest. -/
def prunedForest : HForest → List (String × HNode)
  | .nil => []
  | .cons n r => prunedNode n ++ prunedForest r
end

/-- One extraction step over the pruned traversal. -/
def extractStepP (acc : List JSection × List Str) (e : String × HNode) :
    List JSection × List Str :=
  match classifyPruned e with
  | none => acc
  | some s =>
      if sectionKey s ∈ acc.2 then acc else (acc.1 ++ [s], sectionKey s :: acc.2)

/-- Extraction re-expressed over the pruned traversal: content below `ul`, `ol`
and `table` elements is never even visited. -/
def extractSectionsPruned : HNode → List JSection
  | .text _ => []
  | .elem t cs =>
      if isExcludedTag t then [] else ((prunedForest cs).foldl extractStepP ([], [])).1

/-- Per-character replacement of `escapeHtml` (src/index.js lines 12-21). -/
def escChar (c : Char) : Str :=
  if c = '&' then S "&amp;"
  else if c = '<' then S "&lt;"
  else if c = '>' then S "&gt;"
  else if c = '"' then S "&quot;"
  else if c = '\'' then S "&#039;"
  else [c]

/-- Model of `escapeHtml`: `text.replace(/[&<>"']/g, (m) => map[m])`. -/
def escapeHtml : Str → Str
  | [] => []
  | c :: t => escChar c ++ escapeHtml t

/-- Standard HTML unescaping of the five entities produced by `escapeHtml`:
an ampersand starting one of the five entity spellings decodes to the escaped
character, any other character passes through unchanged. -/
def unescapeHtml : Str → Str
  | [] => []
  | c :: t =>
    if c = '&' then
      match t with
      | 'a' :: 'm' :: 'p' :: ';' :: r => '&' :: unescapeHtml r
      | 'l' :: 't' :: ';' :: r => '<' :: unescapeHtml r
      | 'g' :: 't' :: ';' :: r => '>' :: unescapeHtml r
      | 'q' :: 'u' :: 'o' :: 't' :: ';' :: r => '"' :: unescapeHtml r
      | '#' :: '0' :: '3' :: '9' :: ';' :: r => '\'' :: unescapeHtml r
      | r => c :: unescapeHtml r
    else c :: unescapeHtml t

/-- Scanner for an occurrence of the character `<` immediately followed by `s`
(the start of any literal `<script`). -/
def hasLtS : Str → Bool
  | [] => false
  | [_] => false
  | a :: b :: t => (a == '<' && b == 's') || hasLtS (b :: t)

/-- A calendar date, standing for a JavaScript `Date` value (only the fields
`toLocaleDateString('de-DE', {year:'numeric', month:'long', day:'numeric'})`
consumes). -/
structure JDate where
  year : Nat
  month : Nat
  day : Nat
deriving DecidableEq, Repr

/-- German month names used by the `de-DE` locale. -/
def germanMonthName : Nat → String
  | 1 => "Januar"
  | 2 => "Februar"
  | 3 => "März"
  | 4 => "April"
  | 5 => "Mai"
  | 6 => "Juni"
  | 7 => "Juli"
  | 8 => "August"
  | 9 => "September"
  | 10 => "Oktober"
  | 11 => "November"
  | 12 => "Dezember"
  | _ => ""

/-- Model of `formatDate` (src/index.js lines 23-28): `de-DE` locale, day,
full month name, year — e.g. `15. Januar 2025`.  The JS default argument
`new Date()` is supplied explicitly by each caller. -/
def formatDate (d : JDate) : Str :=
  Nat.toDigits 10 d.day ++ S ". " ++ (germanMonthName d.month).data ++ S " " ++
    Nat.toDigits 10 d.year

/-- The metadata record of a scraped document (src/index.js lines 42-46). -/
structure PageMetadata where
  description : Str
  url : Str
  scrapedAt : Str
deriving DecidableEq, Repr

/-- The `ContentDocument`: title, metadata and the extracted section sequence. -/
structure Content where
  title : Str
  metadata : PageMetadata
  sections : List JSection
deriving DecidableEq, Repr

/-- Renderer options; the absent/empty JS `footerText` is the empty string. -/
structure RenderOpts where
  footerText : Str
deriving DecidableEq, Repr

/-- Model of `renderSection` (src/index.js lines 142-159): the styled-document
(HTML) renderer for one section; unknown types fall to `|| ''`. -/
def renderSection (s : JSection) : Str :=
  match s.type with
  | "h1" => S "<h1>" ++ (escapeHtml s.content ++ S "</h1>")
  | "h2" => S "<h2>" ++ (escapeHtml s.content ++ S "</h2>")
  | "h3" => S "<h3>" ++ (escapeHtml s.content ++ S "</h3>")
  | "h4" => S "<h4>" ++ (escapeHtml s.content ++ S "</h4>")
  | "paragraph" => S "<p>" ++ (escapeHtml s.content ++ S "</p>")
  | "bullet-list" =>
      S "<ul>" ++ ((s.items.map fun item => S "<li>" ++ (escapeHtml item ++ S "</li>"))).flatten ++ S "</ul>"
  | "numbered-list" =>
      S "<ol>" ++ ((s.items.map fun item => S "<li>" ++ (escapeHtml item ++ S "</li>"))).flatten ++ S "</ol>"
  | "quote" => S "<blockquote>" ++ (escapeHtml s.content ++ S "</blockquote>")
  | _ => []

/-- Model of `renderSections` (src/index.js lines 161-162). -/
def renderSections (sections : List JSection) : Str :=
  List.intercalate (S "\n") (sections.map renderSection)

/-- Model of `renderHeader` (src/index.js lines 164-172); `now` is the
`new Date()` the inner `formatDate()` call creates at render time. -/
def renderHeader (content : Content) (now : JDate) : Str :=
  S "\n  <div class=\"header\">\n    <h1>" ++ escapeHtml content.title ++
  S "</h1>\n    <div class=\"metadata\">\n      <p>Quelle: " ++ escapeHtml content.metadata.url ++
  S "</p>\n      <p>Generiert am: " ++ formatDate now ++
  S "</p>\n    </div>\n  </div>\n"

/-- Model of `renderFooter` (src/index.js lines 174-178): always emits the
footer block, with the escaped (possibly empty) footer text inside. -/
def renderFooter (footerText : Str) : Str :=
  S "\n  <div class=\"footer\">\n    <p>" ++ escapeHtml footerText ++ S "</p>\n  </div>\n"

/-- Model of `getStyles` (src/index.js lines 180-250): the CSS block. -/
def getStyles : Str := S "
  @page \x7b
    margin: 2cm;
  \x7d
  body \x7b
    font-family: \x27Helvetica Neue\x27, Arial, sans-serif;
    line-height: 1.6;
    color: #333;
    font-size: 11pt;
  \x7d
  h1 \x7b
    font-size: 24pt;
    color: #1a1a1a;
    margin-top: 0;
    margin-bottom: 20px;
    page-break-after: avoid;
  \x7d
  h2 \x7b
    font-size: 18pt;
    color: #2a2a2a;
    margin-top: 24px;
    margin-bottom: 12px;
    page-break-after: avoid;
  \x7d
  h3 \x7b
    font-size: 14pt;
    color: #3a3a3a;
    margin-top: 18px;
    margin-bottom: 10px;
    page-break-after: avoid;
  \x7d
  p \x7b
    margin-bottom: 12px;
    text-align: justify;
    orphans: 3;
    widows: 3;
  \x7d
  ul, ol \x7b
    margin-bottom: 12px;
    padding-left: 25px;
  \x7d
  li \x7b
    margin-bottom: 6px;
  \x7d
  blockquote \x7b
    margin: 15px 0;
    padding: 10px 20px;
    border-left: 4px solid #ddd;
    background: #f9f9f9;
    font-style: italic;
  \x7d
  .header \x7b
    text-align: center;
    margin-bottom: 30px;
    padding-bottom: 20px;
    border-bottom: 2px solid #333;
  \x7d
  .metadata \x7b
    font-size: 9pt;
    color: #666;
    margin-top: 10px;
  \x7d
  .footer \x7b
    margin-top: 40px;
    padding-top: 15px;
    border-top: 1px solid #ccc;
    font-size: 9pt;
    color: #666;
    text-align: center;
  \x7d
"

/-- The part of the `generateHTML` template (src/index.js lines 252-266) that
precedes the footer. -/
def htmlBeforeFooter (content : Content) (now : JDate) : Str :=
  S "\n  <!DOCTYPE html>\n  <html lang=\"de\">\n  <head>\n    <meta charset=\"UTF-8\">\n    <title>" ++
  escapeHtml content.title ++
  S "</title>\n    <style>" ++ getStyles ++
  S "</style>\n  </head>\n  <body>\n    " ++
  renderHeader content now ++ S "\n    " ++
  renderSections content.sections ++ S "\n    "

/-- Model of `generateHTML` (src/index.js lines 252-266); note the footer block
is interpolated unconditionally. -/
def generateHTML (content : Content) (options : RenderOpts) (now : JDate) : Str :=
  htmlBeforeFooter content now ++ renderFooter options.footerText ++ S "\n  </body>\n  </html>\n"

/-- Numbered list items: `items.map((item, i) => \x7bi + 1\x7d. item)` joined by newlines. -/
def numberedItems (items : List Str) : Str :=
  List.intercalate (S "\n") (items.enum.map fun p => Nat.toDigits 10 (p.1 + 1) ++ S ". " ++ p.2)

/-- Model of `renderSectionAsMarkdown` (src/index.js lines 272-287). -/
def renderSectionAsMarkdown (s : JSection) : Str :=
  match s.type with
  | "h1" => S "# " ++ s.content ++ S "\n"
  | "h2" => S "## " ++ s.content ++ S "\n"
  | "h3" => S "### " ++ s.content ++ S "\n"
  | "h4" => S "#### " ++ s.content ++ S "\n"
  | "h5" => S "##### " ++ s.content ++ S "\n"
  | "h6" => S "###### " ++ s.content ++ S "\n"
  | "paragraph" => s.content ++ S "\n"
  | "bullet-list" =>
      List.intercalate (S "\n") (s.items.map fun item => S "- " ++ item) ++ S "\n"
  | "numbered-list" => numberedItems s.items ++ S "\n"
  | "quote" => S "> " ++ s.content ++ S "\n"
  | _ => []

/-- Model of `generateMarkdown` (src/index.js lines 289-305); `now` is the
render-time `new Date()` consumed by the `formatDate()` call. -/
def generateMarkdown (content : Content) (options : RenderOpts) (now : JDate) : Str :=
  S "# " ++ content.title ++ S "\n\n" ++
  (S "**Source:** " ++ content.metadata.url ++ S "\n") ++
  (S "**Generated:** " ++ formatDate now ++ S "\n\n") ++
  List.intercalate (S "\n") (content.sections.map renderSectionAsMarkdown) ++
  (if options.footerText.isEmpty then [] else S "\n---\n\n" ++ options.footerText ++ S "\n")

/-- Model of `renderSectionAsPlainText` (src/index.js lines 311-326). -/
def renderSectionAsPlainText (s : JSection) : Str :=
  match s.type with
  | "h1" => s.content ++ S "\n" ++ List.replicate s.content.length '=' ++ S "\n"
  | "h2" => s.content ++ S "\n" ++ List.replicate s.content.length '-' ++ S "\n"
  | "h3" => s.content ++ S "\n"
  | "h4" => s.content ++ S "\n"
  | "h5" => s.content ++ S "\n"
  | "h6" => s.content ++ S "\n"
  | "paragraph" => s.content ++ S "\n"
  | "bullet-list" =>
      List.intercalate (S "\n") (s.items.map fun item => S "• " ++ item) ++ S "\n"
  | "numbered-list" => numberedItems s.items ++ S "\n"
  | "quote" => S "  \"" ++ s.content ++ S "\"\n"
  | _ => []

/-- Model of `generatePlainText` (src/index.js lines 328-344). -/
def generatePlainText (content : Content) (options : RenderOpts) (now : JDate) : Str :=
  content.title ++ S "\n" ++ List.replicate content.title.length '=' ++ S "\n\n" ++
  (S "Source: " ++ content.metadata.url ++ S "\n") ++
  (S "Generated: " ++ formatDate now ++ S "\n\n") ++
  List.intercalate (S "\n") (content.sections.map renderSectionAsPlainText) ++
  (if options.footerText.isEmpty then []
   else S "\n" ++ List.replicate 50 '─' ++ S "\n\n" ++ options.footerText ++ S "\n")

/-- The section types the styled-document renderer recognizes (h5/h6 are absent
from its dispatch table). -/
def htmlTypes : List String :=
  ["h1", "h2", "h3", "h4", "paragraph", "bullet-list", "numbered-list", "quote"]

/-- The section types the Markdown and plain-text renderers recognize. -/
def textTypes : List String :=
  ["h1", "h2", "h3", "h4", "h5", "h6", "paragraph", "bullet-list", "numbered-list", "quote"]

/-! ### Properties of `trim` -/

theorem trim_eq_rdrop (l : Str) : trim l = (l.dropWhile isWs).rdropWhile isWs := rfl

theorem trim_trim (l : Str) : trim (trim l) = trim l := by
  have hpre : ((l.dropWhile isWs).rdropWhile isWs) <+: (l.dropWhile isWs) :=
    List.rdropWhile_prefix isWs (l.dropWhile isWs)
  have h2 : List.dropWhile isWs ((l.dropWhile isWs).rdropWhile isWs) =
      (l.dropWhile isWs).rdropWhile isWs := by
    rw [List.dropWhile_eq_self_iff]
    intro hl
    have h0 : 0 < (l.dropWhile isWs).length := lt_of_lt_of_le hl hpre.length_le
    have hx := hpre.getElem hl
    have hnot := List.dropWhile_get_zero_not isWs l h0
    simp only [List.get_eq_getElem] at hnot ⊢
    rw [hx]
    exact hnot
  have e1 : trim (trim l) = ((trim l).dropWhile isWs).rdropWhile isWs := rfl
  have e2 : trim l = (l.dropWhile isWs).rdropWhile isWs := rfl
  rw [e1, e2, h2, List.rdropWhile_idempotent]

theorem isValidText_trim (t : Str) :
    isValidText (trim t) 3 = true ↔ 3 ≤ (trim t).length := by
  unfold isValidText
  rw [trim_trim]
  simp only [Bool.and_eq_true, decide_eq_true_eq, Bool.not_eq_true', List.isEmpty_eq_false]
  constructor
  · exact fun h => h.2
  · intro h
    refine ⟨?_, h⟩
    intro hnil
    rw [hnil] at h
    simp at h

/-! ### Decomposition of `extractSections` into classification plus keep-first dedup -/

theorem foldl_extractStep (l : List Entry) :
    ∀ (a : List JSection) (seen : List Str),
      (l.foldl extractStep (a, seen)).1 = a ++ dedupByKey (l.filterMap classifyEntry) seen := by
  induction l with
  | nil => intro a seen; simp [dedupByKey]
  | cons e l ih =>
    intro a seen
    simp only [List.foldl_cons, List.filterMap_cons]
    cases hc : classifyEntry e with
    | none => simp only [extractStep, hc]; exact ih a seen
    | some s =>
      by_cases hk : sectionKey s ∈ seen
      · simp only [extractStep, hc, if_pos hk, dedupByKey]
        exact ih a seen
      · simp only [extractStep, hc, if_neg hk, dedupByKey]
        rw [ih (a ++ [s]) (sectionKey s :: seen), List.append_assoc]
        rfl

theorem foldl_extractStepP (l : List (String × HNode)) :
    ∀ (a : List JSection) (seen : List Str),
      (l.foldl extractStepP (a, seen)).1 = a ++ dedupByKey (l.filterMap classifyPruned) seen := by
  induction l with
  | nil => intro a seen; simp [dedupByKey]
  | cons e l ih =>
    intro a seen
    simp only [List.foldl_cons, List.filterMap_cons]
    cases hc : classifyPruned e with
    | none => simp only [extractStepP, hc]; exact ih a seen
    | some s =>
      by_cases hk : sectionKey s ∈ seen
      · simp only [extractStepP, hc, if_pos hk, dedupByKey]
        exact ih a seen
      · simp only [extractStepP, hc, if_neg hk, dedupByKey]
        rw [ih (a ++ [s]) (sectionKey s :: seen), List.append_assoc]
        rfl

theorem extractSections_eq_dedup (root : HNode) :
    extractSections root = dedupByKey (classifiedSections root) [] := by
  unfold extractSections classifiedSections
  rw [foldl_extractStep]
  rfl

/-! ### Properties of keep-first dedup -/

theorem dedupByKey_sublist : ∀ (l : List JSection) (seen : List Str),
    List.Sublist (dedupByKey l seen) l := by
  intro l
  induction l with
  | nil => intro seen; simp [dedupByKey]
  | cons s rest ih =>
    intro seen
    by_cases hk : sectionKey s ∈ seen
    · simp only [dedupByKey, if_pos hk]
      exact (ih seen).trans (List.sublist_cons_self s rest)
    · simp only [dedupByKey, if_neg hk]
      exact List.Sublist.cons₂ s (ih (sectionKey s :: seen))

theorem dedupByKey_keys : ∀ (l : List JSection) (seen : List Str),
    ((dedupByKey l seen).map sectionKey).Nodup ∧
      ∀ k ∈ (dedupByKey l seen).map sectionKey, k ∉ seen := by
  intro l
  induction l with
  | nil => intro seen; simp [dedupByKey]
  | cons s rest ih =>
    intro seen
    by_cases hk : sectionKey s ∈ seen
    · simpa [dedupByKey, if_pos hk] using ih seen
    · simp only [dedupByKey, if_neg hk, List.map_cons, List.nodup_cons, List.mem_cons]
      obtain ⟨hnodup, hdisj⟩ := ih (sectionKey s :: seen)
      refine ⟨⟨?_, hnodup⟩, ?_⟩
      · intro hmem
        exact hdisj _ hmem (List.mem_cons_self _ _)
      · rintro k (rfl | hmem)
        · exact hk
        · intro hks
          exact hdisj k hmem (List.mem_cons_of_mem _ hks)

theorem dedupByKey_complete : ∀ (l : List JSection) (seen : List Str) (s : JSection),
    s ∈ l → sectionKey s ∈ seen ∨ sectionKey s ∈ (dedupByKey l seen).map sectionKey := by
  intro l
  induction l with
  | nil => intro seen s hs; cases hs
  | cons t rest ih =>
    intro seen s hs
    by_cases hk : sectionKey t ∈ seen
    · simp only [dedupByKey, if_pos hk]
      rcases List.mem_cons.mp hs with rfl | hs'
      · exact Or.inl hk
      · exact ih seen s hs'
    · simp only [dedupByKey, if_neg hk, List.map_cons, List.mem_cons]
      rcases List.mem_cons.mp hs with rfl | hs'
      · exact Or.inr (Or.inl rfl)
      · rcases ih (sectionKey t :: seen) s hs' with h | h
        · rcases List.mem_cons.mp h with heq | hseen
          · exact Or.inr (Or.inl heq)
          · exact Or.inl hseen
        · exact Or.inr (Or.inr h)

/-! ### The exclusion rule: content below `ul`, `ol`, `table` contributes nothing -/

mutual
theorem visitNode_excluded : ∀ (anc : List String) (n : HNode),
    anc.any isExcludedTag = true → (visitNode anc n).filterMap classifyEntry = []
  | _, .text _, _ => by simp [visitNode]
  | anc, .elem t cs, h => by
      have hc : (t :: anc).any isExcludedTag = true := by simp [List.any_cons, h]
      simp [visitNode, List.filterMap_cons, classifyEntry, h,
        visitForest_excluded (t :: anc) cs hc]

theorem visitForest_excluded : ∀ (anc : List String) (f : HForest),
    anc.any isExcludedTag = true → (visitForest anc f).filterMap classifyEntry = []
  | _, .nil, _ => by simp [visitForest]
  | anc, .cons n r, h => by
      simp [visitForest, List.filterMap_append, visitNode_excluded anc n h,
        visitForest_excluded anc r h]
end

mutual
theorem visitNode_pruned : ∀ (anc : List String) (n : HNode),
    anc.any isExcludedTag = false →
    (visitNode anc n).filterMap classifyEntry = (prunedNode n).filterMap classifyPruned
  | _, .text _, _ => by simp [visitNode, prunedNode]
  | anc, .elem t cs, h => by
      cases ht : isExcludedTag t with
      | true =>
          have hc : (t :: anc).any isExcludedTag = true := by simp [List.any_cons, ht]
          simp [visitNode, prunedNode, List.filterMap_cons, classifyEntry, classifyPruned, h, ht,
            visitForest_excluded (t :: anc) cs hc]
      | false =>
          have hc : (t :: anc).any isExcludedTag = false := by simp [List.any_cons, ht, h]
          simp [visitNode, prunedNode, List.filterMap_cons, classifyEntry, classifyPruned, h, ht,
            visitForest_pruned (t :: anc) cs hc]

theorem visitForest_pruned : ∀ (anc : List String) (f : HForest),
    anc.any isExcludedTag = false →
    (visitForest anc f).filterMap classifyEntry = (prunedForest f).filterMap classifyPruned
  | _, .nil, _ => by simp [visitForest, prunedForest]
  | anc, .cons n r, h => by
      simp [visitForest, prunedForest, List.filterMap_append, visitNode_pruned anc n h,
        visitForest_pruned anc r h]
end

theorem extractSections_eq_pruned (root : HNode) :
    extractSections root = extractSectionsPruned root := by
  cases root with
  | text s => rfl
  | elem t cs =>
    rw [extractSections_eq_dedup]
    show dedupByKey ((visitForest [t] cs).filterMap classifyEntry) [] =
      (if isExcludedTag t then ([] : List JSection)
       else ((prunedForest cs).foldl extractStepP ([], [])).1)
    cases ht : isExcludedTag t with
    | true =>
        have hc : ([t] : List String).any isExcludedTag = true := by simp [ht]
        rw [if_pos rfl, visitForest_excluded [t] cs hc]
        rfl
    | false =>
        have hc : ([t] : List String).any isExcludedTag = false := by simp [ht]
        rw [if_neg (by simp [ht]), foldl_extractStepP, visitForest_pruned [t] cs hc]
        rfl

/-! ### Inversion of the per-tag extractors -/

theorem extractHeading_some {n : HNode} {tag : String} {s : JSection}
    (h : extractHeading n tag = some s) :
    s = ⟨tag, trim (textOf n), []⟩ ∧ trim (textOf n) ≠ [] := by
  by_cases hc : trim (textOf n) = []
  · simp [extractHeading, hc] at h
  · simp [extractHeading, hc] at h
    exact ⟨h.symm, hc⟩

theorem extractQuote_some {n : HNode} {s : JSection}
    (h : extractQuote n = some s) :
    s = ⟨"quote", trim (textOf n), []⟩ ∧ trim (textOf n) ≠ [] := by
  by_cases hc : trim (textOf n) = []
  · simp [extractQuote, hc] at h
  · simp [extractQuote, hc] at h
    exact ⟨h.symm, hc⟩

theorem extractParagraph_some {n : HNode} {s : JSection}
    (h : extractParagraph n = some s) :
    s = ⟨"paragraph", trim (textOf n), []⟩ ∧ 3 ≤ (trim (textOf n)).length := by
  by_cases hv : isValidText (trim (textOf n)) 3 = true
  · simp [extractParagraph, hv] at h
    exact ⟨h.symm, (isValidText_trim _).mp hv⟩
  · simp [extractParagraph, hv] at h

theorem extractParagraph_none {n : HNode}
    (h : (trim (textOf n)).length < 3) : extractParagraph n = none := by
  have hv : ¬ isValidText (trim (textOf n)) 3 = true := by
    rw [isValidText_trim]
    omega
  simp [extractParagraph, hv]

theorem extractList_some {n : HNode} {ty : String} {s : JSection}
    (h : extractList n ty = some s) :
    s.type = ty ∧ s.content = [] ∧ s.items ≠ [] ∧ ∀ i ∈ s.items, i ≠ [] ∧ trim i = i := by
  unfold extractList at h
  by_cases he :
      (((directLis n).map fun li => trim (textOf li)).filter fun i => !i.isEmpty).isEmpty = true
  · rw [if_pos he] at h
    cases h
  · rw [if_neg he] at h
    have hs : s = ⟨ty, [], ((directLis n).map fun li => trim (textOf li)).filter fun i => !i.isEmpty⟩ :=
      (Option.some.inj h).symm
    refine ⟨by rw [hs], by rw [hs], ?_, ?_⟩
    · intro h0
      apply he
      rw [hs] at h0
      simpa [List.isEmpty_iff] using h0
    · intro i hi
      rw [hs] at hi
      have hmem := List.mem_filter.mp hi
      obtain ⟨li, _, hli⟩ := List.mem_map.mp hmem.1
      refine ⟨by simpa using hmem.2, ?_⟩
      rw [← hli, trim_trim]

/-! ### The data-model invariant of constructed sections -/

/-- The invariant of §3 of the spec: heading and quote text non-empty after
trimming, paragraph text at least 3 characters (and already trimmed), list
items a non-empty sequence of non-empty trimmed strings. -/
def sectionInvariant (s : JSection) : Prop :=
  (s.type ∈ ["h1", "h2", "h3", "h4", "h5", "h6"] → trim s.content ≠ []) ∧
  (s.type = "quote" → trim s.content ≠ []) ∧
  (s.type = "paragraph" → trim s.content = s.content ∧ 3 ≤ s.content.length) ∧
  (s.type ∈ ["bullet-list", "numbered-list"] → s.items ≠ [] ∧ ∀ i ∈ s.items, i ≠ [] ∧ trim i = i)

theorem extractHeading_invariant {n : HNode} {tag : String} {s : JSection}
    (htag : tag = "h1" ∨ tag = "h2" ∨ tag = "h3" ∨ tag = "h4" ∨ tag = "h5" ∨ tag = "h6")
    (h : extractHeading n tag = some s) : sectionInvariant s := by
  obtain ⟨rfl, hne⟩ := extractHeading_some h
  have htrim : trim (trim (textOf n)) ≠ [] := by
    rw [trim_trim]
    exact hne
  rcases htag with rfl | rfl | rfl | rfl | rfl | rfl <;>
    refine ⟨fun _ => htrim, fun hq => ?_, fun hp => ?_, fun hm => ?_⟩ <;> simp_all

theorem extractSectionByType_invariant {n : HNode} {tag : String} {s : JSection}
    (h : extractSectionByType n tag = some s) : sectionInvariant s := by
  unfold extractSectionByType at h
  split at h
  · exact extractHeading_invariant (by simp) h
  · exact extractHeading_invariant (by simp) h
  · exact extractHeading_invariant (by simp) h
  · exact extractHeading_invariant (by simp) h
  · exact extractHeading_invariant (by simp) h
  · exact extractHeading_invariant (by simp) h
  · -- paragraph
    obtain ⟨rfl, hlen⟩ := extractParagraph_some h
    refine ⟨fun hm => ?_, fun hq => ?_, fun _ => ⟨trim_trim _, hlen⟩, fun hm2 => ?_⟩ <;> simp_all
  · -- bullet list
    obtain ⟨hty, hco, hne, hitems⟩ := extractList_some h
    refine ⟨fun hm => ?_, fun hq => ?_, fun hp => ?_, fun _ => ⟨hne, hitems⟩⟩
    · rw [hty] at hm
      exact absurd hm (by decide)
    · rw [hty] at hq
      exact absurd hq (by decide)
    · rw [hty] at hp
      exact absurd hp (by decide)
  · -- numbered list
    obtain ⟨hty, hco, hne, hitems⟩ := extractList_some h
    refine ⟨fun hm => ?_, fun hq => ?_, fun hp => ?_, fun _ => ⟨hne, hitems⟩⟩
    · rw [hty] at hm
      exact absurd hm (by decide)
    · rw [hty] at hq
      exact absurd hq (by decide)
    · rw [hty] at hp
      exact absurd hp (by decide)
  · -- quote
    obtain ⟨rfl, hne⟩ := extractQuote_some h
    have htrim : trim (trim (textOf n)) ≠ [] := by
      rw [trim_trim]
      exact hne
    refine ⟨fun hm => ?_, fun _ => htrim, fun hp => ?_, fun hm2 => ?_⟩ <;> simp_all
  · cases h

theorem classifyEntry_invariant {e : Entry} {s : JSection}
    (h : classifyEntry e = some s) : sectionInvariant s := by
  obtain ⟨tag, anc, n⟩ := e
  simp only [classifyEntry] at h
  by_cases hanc : anc.any isExcludedTag = true
  · simp [hanc] at h
  · simp only [Bool.not_eq_true] at hanc
    simp only [hanc, Bool.false_eq_true, if_false] at h
    exact extractSectionByType_invariant h

theorem mem_extractSections_invariant {root : HNode} {s : JSection}
    (h : s ∈ extractSections root) : sectionInvariant s := by
  rw [extractSections_eq_dedup] at h
  have hmem : s ∈ classifiedSections root :=
    (dedupByKey_sublist _ _).subset h
  obtain ⟨e, _, he⟩ := List.mem_filterMap.mp hmem
  exact classifyEntry_invariant he

/-! ### Concrete fixtures used by witnesses and counterexamples -/

/-- `<main><h2>Same</h2><h2>Same</h2><p>Hello there</p></main>`. -/
def root1 : HNode :=
  .elem "main" (.ofList
    [.elem "h2" (.ofList [.text (S "Same")]),
     .elem "h2" (.ofList [.text (S "Same")]),
     .elem "p" (.ofList [.text (S "Hello there")])])

/-- `<main><ul><li>a,b</li></ul><ul><li>a</li><li>b</li></ul></main>`. -/
def root10 : HNode :=
  .elem "main" (.ofList
    [.elem "ul" (.ofList [.elem "li" (.ofList [.text (S "a,b")])]),
     .elem "ul" (.ofList [.elem "li" (.ofList [.text (S "a")]),
                          .elem "li" (.ofList [.text (S "b")])])])

/-- A paragraph element whose trimmed text is shorter than 3 characters. -/
def paraShort : HNode := .elem "p" (.ofList [.text (S "ab")])

/-- A paragraph element whose trimmed text meets the minimum length. -/
def paraLong : HNode := .elem "p" (.ofList [.text (S " Hello there ")])

/-- A minimal `ContentDocument` fixture. -/
def doc0 : Content := ⟨S "T", ⟨[], S "https://x.de", S "2025-01-15T12:00:00.000Z"⟩, []⟩

/-- A render date. -/
def date0 : JDate := ⟨2025, 1, 15⟩

/-- A different render date. -/
def date1 : JDate := ⟨2025, 1, 16⟩

/-! ### Claims C1, C5, C7, C8, C10 -/

/-- C1: for every tree, `extractSections` keeps only the first occurrence of
each identity key: it equals keep-first deduplication of the classified
in-order section sequence, its key sequence is duplicate-free, it is a
subsequence (document order of first occurrences) of the classified sequence,
and every classified section's key is represented in the output. -/
theorem extractSections_dedup_keeps_first_occurrence (root : HNode) :
    extractSections root = dedupByKey (classifiedSections root) [] ∧
    ((extractSections root).map sectionKey).Nodup ∧
    List.Sublist (extractSections root) (classifiedSections root) ∧
    ∀ s ∈ classifiedSections root, sectionKey s ∈ (extractSections root).map sectionKey := by
  refine ⟨extractSections_eq_dedup root, ?_, ?_, ?_⟩
  · rw [extractSections_eq_dedup]
    exact (dedupByKey_keys _ _).1
  · rw [extractSections_eq_dedup]
    exact dedupByKey_sublist _ _
  · intro s hs
    rw [extractSections_eq_dedup]
    rcases dedupByKey_complete _ [] s hs with h | h
    · cases h
    · exact h

/-- Witness for C1 on a tree with a duplicated `h2`: the duplicate is dropped
and the surviving key set covers the classified sequence. -/
theorem extractSections_dedup_keeps_first_occurrence_witness :
    extractSections root1 = [⟨"h2", S "Same", []⟩, ⟨"paragraph", S "Hello there", []⟩] ∧
    (⟨"h2", S "Same", []⟩ : JSection) ∈ classifiedSections root1 ∧
    sectionKey ⟨"h2", S "Same", []⟩ ∈ (extractSections root1).map sectionKey :=
  ⟨by decide, by decide,
    (extractSections_dedup_keeps_first_occurrence root1).2.2.2 _ (by decide)⟩

/-- C5: a `p` element yields a `Paragraph` section if and only if its trimmed
text has at least 3 characters; consequently every paragraph section in the
extraction output has trimmed content of length at least 3. -/
theorem extractParagraph_min_length :
    (∀ n : HNode,
      (extractParagraph n = some ⟨"paragraph", trim (textOf n), []⟩ ↔
        3 ≤ (trim (textOf n)).length)) ∧
    (∀ n : HNode, extractParagraph n = none ↔ (trim (textOf n)).length < 3) ∧
    ∀ (root : HNode) (s : JSection), s ∈ extractSections root → s.type = "paragraph" →
      3 ≤ s.content.length ∧ trim s.content = s.content := by
  have hiff : ∀ n : HNode,
      extractParagraph n = some ⟨"paragraph", trim (textOf n), []⟩ ↔
        3 ≤ (trim (textOf n)).length := by
    intro n
    constructor
    · intro h
      exact (extractParagraph_some h).2
    · intro h
      have hv : isValidText (trim (textOf n)) 3 = true := (isValidText_trim _).mpr h
      simp [extractParagraph, hv]
  refine ⟨hiff, ?_, ?_⟩
  · intro n
    constructor
    · intro h
      by_contra hle
      push_neg at hle
      have := (hiff n).mpr hle
      rw [h] at this
      cases this
    · exact fun h => extractParagraph_none h
  · intro root s hs hty
    obtain ⟨-, -, hp, -⟩ := mem_extractSections_invariant hs
    have h2 := hp hty
    exact ⟨h2.2, h2.1⟩

/-- Witness for C5: `<p>ab</p>` yields no section, `<p> Hello there </p>`
yields one, and a concrete extracted paragraph meets the bound. -/
theorem extractParagraph_min_length_witness :
    extractParagraph paraShort = none ∧
    extractParagraph paraLong = some ⟨"paragraph", S "Hello there", []⟩ ∧
    (⟨"paragraph", S "Hello there", []⟩ : JSection) ∈ extractSections root1 ∧
    3 ≤ (S "Hello there").length :=
  ⟨by decide, by decide, by decide,
    ((extractParagraph_min_length.2.2 root1 ⟨"paragraph", S "Hello there", []⟩
      (by decide) (by decide)).1)⟩

/-- C7: extraction never takes a section from an element having a `ul`, `ol`
or `table` ancestor: the traversal is equivalent to one that never descends
below such containers, so in particular no table content ever becomes a
section. -/
theorem extractSections_skips_excluded_interiors (root : HNode) :
    extractSections root = extractSectionsPruned root :=
  extractSections_eq_pruned root

/-- C8: every section constructed by extraction satisfies the data-model
invariant (non-empty trimmed heading/quote text, paragraph length ≥ 3,
non-empty lists of non-empty trimmed items). -/
theorem extractSections_invariant (root : HNode) :
    ∀ s ∈ extractSections root, sectionInvariant s :=
  fun _ hs => mem_extractSections_invariant hs

/-- Witness for C8: a concrete extracted heading satisfies the invariant. -/
theorem extractSections_invariant_witness :
    (⟨"h2", S "Same", []⟩ : JSection) ∈ extractSections root1 ∧
    sectionInvariant ⟨"h2", S "Same", []⟩ :=
  ⟨by decide, extractSections_invariant root1 _ (by decide)⟩

/-- C10: the dedup key of a list joins its items with a comma, so the two
lists `[\"a,b\"]` and `[\"a\",\"b\"]` have equal keys although their item
sequences differ; in one traversal containing both, the second is discarded
even though its items differ (both are classified, one survives). -/
theorem sectionKey_list_collision :
    sectionKey ⟨"bullet-list", [], [S "a,b"]⟩ = sectionKey ⟨"bullet-list", [], [S "a", S "b"]⟩ ∧
    ([S "a,b"] : List Str) ≠ [S "a", S "b"] ∧
    classifiedSections root10 =
      [⟨"bullet-list", [], [S "a,b"]⟩, ⟨"bullet-list", [], [S "a", S "b"]⟩] ∧
    extractSections root10 = [⟨"bullet-list", [], [S "a,b"]⟩] := by
  refine ⟨by decide, by decide, by decide, by decide⟩

/-! ### Non-emptiness characterization of the three renderers -/

theorem ne_nil_of_append_left {x y : Str} (hx : x ≠ []) : x ++ y ≠ [] := by
  intro h
  exact hx (List.append_eq_nil.mp h).1

theorem ne_nil_of_append_right {x y : Str} (hy : y ≠ []) : x ++ y ≠ [] := by
  intro h
  exact hy (List.append_eq_nil.mp h).2

theorem renderSection_ne_nil_iff (s : JSection) :
    renderSection s ≠ [] ↔ s.type ∈ htmlTypes := by
  unfold renderSection
  split
  · rename_i heq
    exact iff_of_true (ne_nil_of_append_left (by decide)) (by rw [heq]; decide)
  · rename_i heq
    exact iff_of_true (ne_nil_of_append_left (by decide)) (by rw [heq]; decide)
  · rename_i heq
    exact iff_of_true (ne_nil_of_append_left (by decide)) (by rw [heq]; decide)
  · rename_i heq
    exact iff_of_true (ne_nil_of_append_left (by decide)) (by rw [heq]; decide)
  · rename_i heq
    exact iff_of_true (ne_nil_of_append_left (by decide)) (by rw [heq]; decide)
  · rename_i heq
    exact iff_of_true (ne_nil_of_append_right (by decide)) (by rw [heq]; decide)
  · rename_i heq
    exact iff_of_true (ne_nil_of_append_right (by decide)) (by rw [heq]; decide)
  · rename_i heq
    exact iff_of_true (ne_nil_of_append_left (by decide)) (by rw [heq]; decide)
  · rename_i h1 h2 h3 h4 h5 h6 h7 h8
    refine iff_of_false (by simp) ?_
    simp only [htmlTypes, List.mem_cons, List.mem_singleton, not_or]
    exact ⟨h1, h2, h3, h4, h5, h6, h7, ⟨h8, by simp⟩⟩

theorem renderSectionAsMarkdown_ne_nil_iff (s : JSection) :
    renderSectionAsMarkdown s ≠ [] ↔ s.type ∈ textTypes := by
  unfold renderSectionAsMarkdown
  split
  · rename_i heq
    exact iff_of_true (ne_nil_of_append_right (by decide)) (by rw [heq]; decide)
  · rename_i heq
    exact iff_of_true (ne_nil_of_append_right (by decide)) (by rw [heq]; decide)
  · rename_i heq
    exact iff_of_true (ne_nil_of_append_right (by decide)) (by rw [heq]; decide)
  · rename_i heq
    exact iff_of_true (ne_nil_of_append_right (by decide)) (by rw [heq]; decide)
  · rename_i heq
    exact iff_of_true (ne_nil_of_append_right (by decide)) (by rw [heq]; decide)
  · rename_i heq
    exact iff_of_true (ne_nil_of_append_right (by decide)) (by rw [heq]; decide)
  · rename_i heq
    exact iff_of_true (ne_nil_of_append_right (by decide)) (by rw [heq]; decide)
  · rename_i heq
    exact iff_of_true (ne_nil_of_append_right (by decide)) (by rw [heq]; decide)
  · rename_i heq
    exact iff_of_true (ne_nil_of_append_right (by decide)) (by rw [heq]; decide)
  · rename_i heq
    exact iff_of_true (ne_nil_of_append_right (by decide)) (by rw [heq]; decide)
  · rename_i h1 h2 h3 h4 h5 h6 h7 h8 h9 h10
    refine iff_of_false (by simp) ?_
    simp only [textTypes, List.mem_cons, List.mem_singleton, not_or]
    exact ⟨h1, h2, h3, h4, h5, h6, h7, h8, h9, ⟨h10, by simp⟩⟩

theorem renderSectionAsPlainText_ne_nil_iff (s : JSection) :
    renderSectionAsPlainText s ≠ [] ↔ s.type ∈ textTypes := by
  unfold renderSectionAsPlainText
  split
  · rename_i heq
    exact iff_of_true (ne_nil_of_append_right (by decide)) (by rw [heq]; decide)
  · rename_i heq
    exact iff_of_true (ne_nil_of_append_right (by decide)) (by rw [heq]; decide)
  · rename_i heq
    exact iff_of_true (ne_nil_of_append_right (by decide)) (by rw [heq]; decide)
  · rename_i heq
    exact iff_of_true (ne_nil_of_append_right (by decide)) (by rw [heq]; decide)
  · rename_i heq
    exact iff_of_true (ne_nil_of_append_right (by decide)) (by rw [heq]; decide)
  · rename_i heq
    exact iff_of_true (ne_nil_of_append_right (by decide)) (by rw [heq]; decide)
  · rename_i heq
    exact iff_of_true (ne_nil_of_append_right (by decide)) (by rw [heq]; decide)
  · rename_i heq
    exact iff_of_true (ne_nil_of_append_right (by decide)) (by rw [heq]; decide)
  · rename_i heq
    exact iff_of_true (ne_nil_of_append_right (by decide)) (by rw [heq]; decide)
  · rename_i heq
    exact iff_of_true (ne_nil_of_append_right (by decide)) (by rw [heq]; decide)
  · rename_i h1 h2 h3 h4 h5 h6 h7 h8 h9 h10
    refine iff_of_false (by simp) ?_
    simp only [textTypes, List.mem_cons, List.mem_singleton, not_or]
    exact ⟨h1, h2, h3, h4, h5, h6, h7, h8, h9, ⟨h10, by simp⟩⟩

/-! ### Claims C2 and C9 -/

/-- C2 (corrected): each renderer produces a non-empty rendering exactly for
the section types it recognizes; Markdown and plain text recognize the same
types (h1-h6, paragraph, both lists, quote), but the styled-document renderer
does not recognize h5/h6, so the three formats agree on section count and
ordering only for documents without h5/h6 sections. -/
theorem renderers_nonempty_characterization (s : JSection) :
    (renderSection s ≠ [] ↔ s.type ∈ htmlTypes) ∧
    (renderSectionAsMarkdown s ≠ [] ↔ s.type ∈ textTypes) ∧
    (renderSectionAsPlainText s ≠ [] ↔ s.type ∈ textTypes) :=
  ⟨renderSection_ne_nil_iff s, renderSectionAsMarkdown_ne_nil_iff s,
    renderSectionAsPlainText_ne_nil_iff s⟩

/-- Counterexample to C2 as stated: an `h5` heading renders to the empty
string in the styled-document renderer while the Markdown and plain-text
renderers render it non-empty. -/
theorem renderSection_h5_mismatch :
    renderSection ⟨"h5", S "abcde", []⟩ = [] ∧
    renderSectionAsMarkdown ⟨"h5", S "abcde", []⟩ ≠ [] ∧
    renderSectionAsPlainText ⟨"h5", S "abcde", []⟩ ≠ [] := by
  refine ⟨by decide, by decide, by decide⟩

/-- C9: a section whose type a renderer does not recognize renders to the
empty string in that renderer, for all three output formats. -/
theorem renderers_unknown_type_empty (s : JSection) :
    (s.type ∉ htmlTypes → renderSection s = []) ∧
    (s.type ∉ textTypes → renderSectionAsMarkdown s = []) ∧
    (s.type ∉ textTypes → renderSectionAsPlainText s = []) := by
  refine ⟨fun h => ?_, fun h => ?_, fun h => ?_⟩
  · by_contra hne
    exact h ((renderSection_ne_nil_iff s).mp hne)
  · by_contra hne
    exact h ((renderSectionAsMarkdown_ne_nil_iff s).mp hne)
  · by_contra hne
    exact h ((renderSectionAsPlainText_ne_nil_iff s).mp hne)

/-- Witness for C9: an unrecognized variant renders to the empty string in
all three renderers. -/
theorem renderers_unknown_type_empty_witness :
    ("custom" ∉ htmlTypes) ∧ ("custom" ∉ textTypes) ∧
    renderSection ⟨"custom", S "Test", []⟩ = [] ∧
    renderSectionAsMarkdown ⟨"custom", S "Test", []⟩ = [] ∧
    renderSectionAsPlainText ⟨"custom", S "Test", []⟩ = [] :=
  ⟨by decide, by decide,
    (renderers_unknown_type_empty ⟨"custom", S "Test", []⟩).1 (by decide),
    (renderers_unknown_type_empty ⟨"custom", S "Test", []⟩).2.1 (by decide),
    (renderers_unknown_type_empty ⟨"custom", S "Test", []⟩).2.2 (by decide)⟩

/-! ### Claims C3 and C4 -/

/-- C3 (corrected): the Markdown and plain-text renderers append the visually
separated footer exactly once when `footerText` is non-empty and append
nothing when it is empty; the styled-document renderer, however, emits the
footer block exactly once unconditionally (with empty text inside when
`footerText` is empty), so an empty `footerText` does not remove the footer
element there. -/
theorem footer_emission (c : Content) (ft : Str) (now : JDate) :
    (generateMarkdown c ⟨ft⟩ now =
      generateMarkdown c ⟨[]⟩ now ++ (if ft = [] then [] else S "\n---\n\n" ++ ft ++ S "\n")) ∧
    (generatePlainText c ⟨ft⟩ now =
      generatePlainText c ⟨[]⟩ now ++
        (if ft = [] then [] else S "\n" ++ List.replicate 50 '─' ++ S "\n\n" ++ ft ++ S "\n")) ∧
    (generateHTML c ⟨ft⟩ now =
      htmlBeforeFooter c now ++ renderFooter ft ++ S "\n  </body>\n  </html>\n") ∧
    renderFooter ft ≠ [] := by
  refine ⟨?_, ?_, rfl, ne_nil_of_append_right (by decide)⟩
  · by_cases hf : ft = []
    · subst hf
      simp [generateMarkdown]
    · simp [generateMarkdown, hf, List.isEmpty_eq_false.mpr hf, List.append_assoc]
  · by_cases hf : ft = []
    · subst hf
      simp [generatePlainText]
    · simp [generatePlainText, hf, List.isEmpty_eq_false.mpr hf, List.append_assoc]

/-- Counterexample to C3 as stated: rendering the styled-document format with
an empty `footerText` still contains the footer element. -/
theorem footer_div_present_with_empty_footer :
    S "<div class=\"footer\">" <:+: generateHTML doc0 ⟨[]⟩ date0 := by
  refine ⟨htmlBeforeFooter doc0 date0 ++ S "\n  ",
    S "\n    <p></p>\n  </div>\n\n  </body>\n  </html>\n", ?_⟩
  have hg : generateHTML doc0 ⟨[]⟩ date0 =
      htmlBeforeFooter doc0 date0 ++ (renderFooter [] ++ S "\n  </body>\n  </html>\n") := by
    rw [← List.append_assoc]
    rfl
  rw [hg, List.append_assoc, List.append_assoc]
  congr 1

/-- C4 (corrected): the displayed generation date comes from the render-time
clock (`new Date()` inside `formatDate()`), not from the captured
`scrapedAt` timestamp: every renderer's output is unchanged under arbitrary
changes of `scrapedAt`. -/
theorem renderers_ignore_scrapedAt (c : Content) (opts : RenderOpts) (now : JDate)
    (t1 t2 : Str) :
    (generateMarkdown ⟨c.title, ⟨c.metadata.description, c.metadata.url, t1⟩, c.sections⟩ opts now =
      generateMarkdown ⟨c.title, ⟨c.metadata.description, c.metadata.url, t2⟩, c.sections⟩ opts now) ∧
    (generatePlainText ⟨c.title, ⟨c.metadata.description, c.metadata.url, t1⟩, c.sections⟩ opts now =
      generatePlainText ⟨c.title, ⟨c.metadata.description, c.metadata.url, t2⟩, c.sections⟩ opts now) ∧
    (generateHTML ⟨c.title, ⟨c.metadata.description, c.metadata.url, t1⟩, c.sections⟩ opts now =
      generateHTML ⟨c.title, ⟨c.metadata.description, c.metadata.url, t2⟩, c.sections⟩ opts now) :=
  ⟨rfl, rfl, rfl⟩

/-- Counterexample to C4 as stated: the same document rendered at two
different wall-clock dates produces different output in all three formats, so
renders are not reproducible from the captured document alone. -/
theorem render_output_depends_on_render_time :
    generateMarkdown doc0 ⟨[]⟩ date0 ≠ generateMarkdown doc0 ⟨[]⟩ date1 ∧
    generatePlainText doc0 ⟨[]⟩ date0 ≠ generatePlainText doc0 ⟨[]⟩ date1 ∧
    generateHTML doc0 ⟨[]⟩ date0 ≠ generateHTML doc0 ⟨[]⟩ date1 := by
  refine ⟨by decide, by decide, ?_⟩
  intro h
  have h1 : htmlBeforeFooter doc0 date0 = htmlBeforeFooter doc0 date1 :=
    List.append_cancel_right (List.append_cancel_right h)
  have h2 : renderHeader doc0 date0 = renderHeader doc0 date1 := by
    have x1 := List.append_cancel_right h1
    have x2 := List.append_cancel_right x1
    have x3 := List.append_cancel_right x2
    exact List.append_cancel_left x3
  have h3 : formatDate date0 = formatDate date1 := by
    have y1 := List.append_cancel_right h2
    exact List.append_cancel_left y1
  exact absurd h3 (by decide)

/-! ### The escaping round-trip -/

theorem un_amp (r : Str) : unescapeHtml (S "&amp;" ++ r) = '&' :: unescapeHtml r := rfl

theorem un_lt (r : Str) : unescapeHtml (S "&lt;" ++ r) = '<' :: unescapeHtml r := rfl

theorem un_gt (r : Str) : unescapeHtml (S "&gt;" ++ r) = '>' :: unescapeHtml r := rfl

theorem un_quot (r : Str) : unescapeHtml (S "&quot;" ++ r) = '"' :: unescapeHtml r := rfl

theorem un_apos (r : Str) : unescapeHtml (S "&#039;" ++ r) = '\'' :: unescapeHtml r := rfl

set_option maxHeartbeats 2000000 in
theorem unescape_cons (c : Char) (r : Str) (h : c ≠ '&') :
    unescapeHtml (c :: r) = c :: unescapeHtml r := by
  rw [unescapeHtml.eq_def]
  simp only []
  rw [if_neg h]

theorem escChar_of_ne (c : Char) (h1 : c ≠ '&') (h2 : c ≠ '<') (h3 : c ≠ '>')
    (h4 : c ≠ '"') (h5 : c ≠ '\'') : escChar c = [c] := by
  simp [escChar, h1, h2, h3, h4, h5]

theorem unescape_escape (t : Str) : unescapeHtml (escapeHtml t) = t := by
  induction t with
  | nil => rfl
  | cons c r ih =>
    show unescapeHtml (escChar c ++ escapeHtml r) = c :: r
    by_cases h1 : c = '&'
    · subst h1
      rw [show escChar '&' = S "&amp;" from rfl, un_amp, ih]
    · by_cases h2 : c = '<'
      · subst h2
        rw [show escChar '<' = S "&lt;" from rfl, un_lt, ih]
      · by_cases h3 : c = '>'
        · subst h3
          rw [show escChar '>' = S "&gt;" from rfl, un_gt, ih]
        · by_cases h4 : c = '"'
          · subst h4
            rw [show escChar '"' = S "&quot;" from rfl, un_quot, ih]
          · by_cases h5 : c = '\''
            · subst h5
              rw [show escChar '\'' = S "&#039;" from rfl, un_apos, ih]
            · rw [escChar_of_ne c h1 h2 h3 h4 h5]
              show unescapeHtml (c :: escapeHtml r) = c :: r
              rw [unescape_cons c _ h1, ih]

/-! ### No literal `<script` in styled-document output -/

theorem escChar_no_lt (c : Char) : '<' ∉ escChar c := by
  unfold escChar
  split
  · decide
  · split
    · decide
    · split
      · decide
      · split
        · decide
        · split
          · decide
          · rename_i hne1 hne2 hne3 hne4 hne5
            intro hmem
            rw [List.mem_singleton] at hmem
            exact hne2 hmem.symm

theorem escapeHtml_no_lt (t : Str) : '<' ∉ escapeHtml t := by
  induction t with
  | nil => simp [escapeHtml]
  | cons c r ih =>
    intro hmem
    rcases List.mem_append.mp hmem with h | h
    · exact escChar_no_lt c h
    · exact ih h

theorem hasLtS_tail {a : Char} {r : Str} (h : hasLtS (a :: r) = false) :
    hasLtS r = false := by
  cases r with
  | nil => rfl
  | cons b t =>
    have h2 : ((a == '<' && b == 's') || hasLtS (b :: t)) = false := h
    exact (Bool.or_eq_false_iff.mp h2).2

theorem hasLtS_of_no_lt {l : Str} (h : '<' ∉ l) : hasLtS l = false := by
  induction l with
  | nil => rfl
  | cons a r ih =>
    have ha : ('<' : Char) ≠ a := fun he => h (by rw [he]; exact List.mem_cons_self a r)
    have hr : ('<' : Char) ∉ r := fun hm => h (List.mem_cons_of_mem a hm)
    cases r with
    | nil => rfl
    | cons b t =>
      show ((a == '<' && b == 's') || hasLtS (b :: t)) = false
      rw [Bool.or_eq_false_iff]
      constructor
      · have : (a == '<') = false := by
          rw [beq_eq_false_iff_ne]
          exact fun he => ha he.symm
        rw [this, Bool.false_and]
      · exact ih hr

theorem hasLtS_append : ∀ (x : Str) {y : Str}, hasLtS x = false → hasLtS y = false →
    (x.getLast? ≠ some '<' ∨ y.head? ≠ some 's') → hasLtS (x ++ y) = false := by
  intro x
  induction x with
  | nil =>
    intro y _ hy _
    simpa using hy
  | cons a x ih =>
    intro y hx hy h
    cases x with
    | nil =>
      cases y with
      | nil => rfl
      | cons b t =>
        show ((a == '<' && b == 's') || hasLtS (b :: t)) = false
        rw [Bool.or_eq_false_iff]
        refine ⟨?_, hy⟩
        rcases h with h | h
        · have ha : a ≠ '<' := by simpa using h
          have : (a == '<') = false := by
            rw [beq_eq_false_iff_ne]
            exact ha
          rw [this, Bool.false_and]
        · have hb : b ≠ 's' := by simpa using h
          have : (b == 's') = false := by
            rw [beq_eq_false_iff_ne]
            exact hb
          rw [this, Bool.and_false]
    | cons a2 x2 =>
      show ((a == '<' && a2 == 's') || hasLtS ((a2 :: x2) ++ y)) = false
      rw [Bool.or_eq_false_iff]
      constructor
      · have h2 : ((a == '<' && a2 == 's') || hasLtS (a2 :: x2)) = false := hx
        exact (Bool.or_eq_false_iff.mp h2).1
      · refine ih (hasLtS_tail hx) hy ?_
        rcases h with h | h
        · left
          rwa [List.getLast?_cons_cons] at h
        · exact Or.inr h

theorem hasLtS_of_pattern : ∀ (u v : Str), hasLtS (u ++ '<' :: 's' :: v) = true := by
  intro u v
  induction u with
  | nil => rfl
  | cons a u ih =>
    cases u with
    | nil =>
      have ih2 : hasLtS ('<' :: 's' :: v) = true := ih
      show ((a == '<' && '<' == 's') || hasLtS ('<' :: 's' :: v)) = true
      rw [ih2, Bool.or_true]
    | cons b u2 =>
      show ((a == '<' && b == 's') || hasLtS ((b :: u2) ++ '<' :: 's' :: v)) = true
      rw [ih, Bool.or_true]

theorem not_script_infix {l : Str} (h : hasLtS l = false) :
    ¬ (S "<script" <:+: l) := by
  rintro ⟨u, v, huv⟩
  have e : u ++ (S "<script" : Str) ++ v = u ++ '<' :: 's' :: (S "cript" ++ v) := by
    have e2 : (S "<script" : Str) ++ v = '<' :: 's' :: (S "cript" ++ v) := rfl
    rw [List.append_assoc, e2]
  have htrue : hasLtS l = true := by
    rw [← huv, e]
    exact hasLtS_of_pattern u (S "cript" ++ v)
  rw [h] at htrue
  cases htrue

theorem renderLis_hasLtS : ∀ items : List Str,
    hasLtS ((items.map fun item => S "<li>" ++ (escapeHtml item ++ S "</li>"))).flatten = false ∧
    (((items.map fun item => S "<li>" ++ (escapeHtml item ++ S "</li>"))).flatten).head? ≠ some 's' := by
  intro items
  induction items with
  | nil => exact ⟨rfl, by decide⟩
  | cons i rest ih =>
    constructor
    · show hasLtS ((S "<li>" ++ (escapeHtml i ++ S "</li>")) ++ _) = false
      refine hasLtS_append _ ?_ ih.1 (Or.inr ih.2)
      refine hasLtS_append _ (by decide) ?_ (Or.inl (by decide))
      exact hasLtS_append _ (hasLtS_of_no_lt (escapeHtml_no_lt i)) (by decide) (Or.inr (by decide))
    · show ((S "<li>" ++ (escapeHtml i ++ S "</li>")) ++ _).head? ≠ some 's'
      exact (by decide : (some '<' : Option Char) ≠ some 's')

theorem renderSection_hasLtS (s : JSection) : hasLtS (renderSection s) = false := by
  have hesc : ∀ t : Str, hasLtS (escapeHtml t) = false :=
    fun t => hasLtS_of_no_lt (escapeHtml_no_lt t)
  unfold renderSection
  split
  · exact hasLtS_append _ (by decide)
      (hasLtS_append _ (hesc _) (by decide) (Or.inr (by decide))) (Or.inl (by decide))
  · exact hasLtS_append _ (by decide)
      (hasLtS_append _ (hesc _) (by decide) (Or.inr (by decide))) (Or.inl (by decide))
  · exact hasLtS_append _ (by decide)
      (hasLtS_append _ (hesc _) (by decide) (Or.inr (by decide))) (Or.inl (by decide))
  · exact hasLtS_append _ (by decide)
      (hasLtS_append _ (hesc _) (by decide) (Or.inr (by decide))) (Or.inl (by decide))
  · exact hasLtS_append _ (by decide)
      (hasLtS_append _ (hesc _) (by decide) (Or.inr (by decide))) (Or.inl (by decide))
  · exact hasLtS_append _
      (hasLtS_append _ (by decide) (renderLis_hasLtS _).1 (Or.inr (renderLis_hasLtS _).2))
      (by decide) (Or.inr (by decide))
  · exact hasLtS_append _
      (hasLtS_append _ (by decide) (renderLis_hasLtS _).1 (Or.inr (renderLis_hasLtS _).2))
      (by decide) (Or.inr (by decide))
  · exact hasLtS_append _ (by decide)
      (hasLtS_append _ (hesc _) (by decide) (Or.inr (by decide))) (Or.inl (by decide))
  · rfl

/-! ### Claim C6 -/

/-- C6: unescaping after escaping is the identity; the escape output never
contains a literal `<`; consequently no rendered section of the
styled-document renderer contains a literal `<script`; and a paragraph's text
reaches the markup only through `escapeHtml`. -/
theorem escapeHtml_roundtrip_and_no_script :
    (∀ t : Str, unescapeHtml (escapeHtml t) = t) ∧
    (∀ t : Str, '<' ∉ escapeHtml t) ∧
    (∀ s : JSection, ¬ (S "<script" <:+: renderSection s)) ∧
    (∀ c : Str, renderSection ⟨"paragraph", c, []⟩ = S "<p>" ++ (escapeHtml c ++ S "</p>")) :=
  ⟨unescape_escape, escapeHtml_no_lt,
    fun s => not_script_infix (renderSection_hasLtS s), fun _ => rfl⟩
